import Mathlib

/-!
Verification of the `docker_save_shell` upload client (`src/main.go`).

The development shallowly embeds the program's core:

* `ProgressReader` and its `Read` method (main.go lines 174-191): a
  byte-counting decorator over an `io.Reader`.  A single Go `Read` call is
  modelled by `ProgressReader.Read`, which receives the pair `(n, err)`
  produced by the wrapped source and returns the updated reader state, the
  optionally emitted progress percentage (an exact rational standing in for
  the `float64` the code computes) and the pair passed through to the
  caller.  A sequence of calls is folded by `runReads`.
* the multipart/form-data encoding of the request body built with
  `mime/multipart`'s `CreateFormFile` plus `Writer.Close`
  (main.go lines 48-91), together with a reference receiver
  (`decodeMultipart`) that parses such bodies back into form parts.
* `filepath.Base` (`baseName`) used for the declared filename.
* the response-receiving step (main.go lines 120-139): a metered read when
  `Content-Length > 0`, a plain read otherwise (`receiveBody`).
* the final report (main.go lines 146-154, `reportResult`) and the
  process-level control flow of `main` with its `os.Exit(1)` error paths
  (`runMain`, `exitCode`).  External effects (opening the file, the HTTP
  send) are injected through a `World` record of outcomes.
-/

/-- Outcome signal of a Go `io.Reader.Read` call: `nil`, `io.EOF`, or some
other I/O error (the distinction between concrete non-EOF errors is
irrelevant to the program). -/
inductive GoError where
  | eof
  | ioError
deriving DecidableEq, Repr

/-- State of the `ProgressReader` struct (main.go lines 174-179): the total
`Size`, the cumulative byte count `read`, and whether an `OnProgress`
callback is attached (`OnProgress != nil`). -/
structure ProgressReader where
  Size : Int
  read : Int
  hasCallback : Bool
deriving DecidableEq, Repr

/-- One call of `ProgressReader.Read` (main.go lines 181-191).  The wrapped
source's result is the pair `(n, err)`; the method adds `n` to the count
unconditionally, emits `read/Size*100` when a callback is attached and
`Size > 0`, and returns the source's pair unchanged. -/
def ProgressReader.Read (pr : ProgressReader) (n : Nat) (err : Option GoError) :
    ProgressReader × Option ℚ × Nat × Option GoError :=
  let newRead : Int := pr.read + (n : Int)
  (⟨pr.Size, newRead, pr.hasCallback⟩,
   if pr.hasCallback ∧ 0 < pr.Size then
     some (((newRead : ℚ)) / ((pr.Size : ℚ)) * 100)
   else none,
   n, err)

/-- Fold a sequence of read results through a `ProgressReader`, collecting
the emitted progress percentages in order. -/
def runReads (pr : ProgressReader) : List (Nat × Option GoError) → ProgressReader × List ℚ
  | [] => (pr, [])
  | r :: rs =>
    let s := pr.Read r.1 r.2
    let t := runReads s.1 rs
    (t.1, s.2.1.toList ++ t.2)

theorem ProgressReader.Read_Size (pr : ProgressReader) (n : Nat) (err : Option GoError) :
    (pr.Read n err).1.Size = pr.Size := rfl

theorem ProgressReader.Read_read (pr : ProgressReader) (n : Nat) (err : Option GoError) :
    (pr.Read n err).1.read = pr.read + (n : Int) := rfl

theorem ProgressReader.Read_cb (pr : ProgressReader) (n : Nat) (err : Option GoError) :
    (pr.Read n err).1.hasCallback = pr.hasCallback := rfl

theorem ProgressReader.Read_out (pr : ProgressReader) (n : Nat) (err : Option GoError) :
    (pr.Read n err).2.2 = (n, err) := rfl

theorem ProgressReader.Read_emit (pr : ProgressReader) (n : Nat) (err : Option GoError) :
    (pr.Read n err).2.1 =
      if pr.hasCallback ∧ 0 < pr.Size then
        some ((((pr.read + (n : Int) : Int)) : ℚ) / ((pr.Size : ℚ)) * 100)
      else none := rfl

theorem runReads_cons_fst (pr : ProgressReader) (r : Nat × Option GoError)
    (rs : List (Nat × Option GoError)) :
    (runReads pr (r :: rs)).1 = (runReads (pr.Read r.1 r.2).1 rs).1 := rfl

theorem runReads_cons_snd (pr : ProgressReader) (r : Nat × Option GoError)
    (rs : List (Nat × Option GoError)) :
    (runReads pr (r :: rs)).2 =
      (pr.Read r.1 r.2).2.1.toList ++ (runReads (pr.Read r.1 r.2).1 rs).2 := rfl

/-- Division by a positive rational and scaling by 100 is monotone. -/
theorem pct_mono {c a b : ℚ} (hc : 0 < c) (hab : a ≤ b) :
    a / c * 100 ≤ b / c * 100 :=
  mul_le_mul_of_nonneg_right ((div_le_div_iff_of_pos_right hc).mpr hab) (by norm_num)

/-- A fraction of at most the whole scaled by 100 is at most 100. -/
theorem pct_le_100 {c a : ℚ} (hc : 0 < c) (h : a ≤ c) : a / c * 100 ≤ 100 := by
  have h1 : a / c ≤ 1 := (div_le_one hc).mpr h
  calc a / c * 100 ≤ 1 * 100 := mul_le_mul_of_nonneg_right h1 (by norm_num)
    _ = 100 := by norm_num

theorem runReads_fst_read (pr : ProgressReader) (rs : List (Nat × Option GoError)) :
    (runReads pr rs).1.read = pr.read + (((rs.map Prod.fst).sum : Nat) : Int) := by
  induction rs generalizing pr with
  | nil => simp [runReads]
  | cons r rs ih =>
    rw [runReads_cons_fst, ih, ProgressReader.Read_read]
    simp only [List.map_cons, List.sum_cons]
    push_cast
    ring

theorem runReads_fst_Size (pr : ProgressReader) (rs : List (Nat × Option GoError)) :
    (runReads pr rs).1.Size = pr.Size := by
  induction rs generalizing pr with
  | nil => rfl
  | cons r rs ih => rw [runReads_cons_fst, ih, ProgressReader.Read_Size]

theorem runReads_read_le_final (pr : ProgressReader) (rs : List (Nat × Option GoError)) :
    pr.read ≤ (runReads pr rs).1.read := by
  rw [runReads_fst_read]
  have : (0 : Int) ≤ (((rs.map Prod.fst).sum : Nat) : Int) := Int.natCast_nonneg _
  omega

/-- Every emitted percentage lies between the percentage computed from the
initial count and the one computed from the final count, and emissions only
happen when `Size` is positive. -/
theorem runReads_emit_bounds (pr : ProgressReader) (rs : List (Nat × Option GoError)) :
    ∀ e ∈ (runReads pr rs).2,
      0 < pr.Size ∧
      ((pr.read : ℚ)) / ((pr.Size : ℚ)) * 100 ≤ e ∧
      e ≤ (((runReads pr rs).1.read : ℚ)) / ((pr.Size : ℚ)) * 100 := by
  induction rs generalizing pr with
  | nil => intro e he; simp [runReads] at he
  | cons r rs ih =>
    intro e he
    rw [runReads_cons_snd, List.mem_append] at he
    rw [runReads_cons_fst]
    rcases he with he | he
    · rw [ProgressReader.Read_emit] at he
      by_cases hc : pr.hasCallback ∧ 0 < pr.Size
      · rw [if_pos hc] at he
        simp only [Option.toList_some, List.mem_singleton] at he
        subst he
        have hposq : (0 : ℚ) < ((pr.Size : ℚ)) := by exact_mod_cast hc.2
        refine ⟨hc.2, ?_, ?_⟩
        · apply pct_mono hposq
          push_cast
          have : (0 : ℚ) ≤ ((r.1 : ℚ)) := by positivity
          linarith
        · apply pct_mono hposq
          have h1 : pr.read + (r.1 : Int) ≤ (runReads (pr.Read r.1 r.2).1 rs).1.read := by
            have h2 := runReads_read_le_final (pr.Read r.1 r.2).1 rs
            rw [ProgressReader.Read_read] at h2
            exact h2
          exact_mod_cast h1
      · rw [if_neg hc] at he
        simp at he
    · have h := ih (pr.Read r.1 r.2).1 e he
      rw [ProgressReader.Read_Size, ProgressReader.Read_read] at h
      have hposq : (0 : ℚ) < ((pr.Size : ℚ)) := by exact_mod_cast h.1
      refine ⟨h.1, ?_, h.2.2⟩
      refine le_trans ?_ h.2.1
      apply pct_mono hposq
      push_cast
      have : (0 : ℚ) ≤ ((r.1 : ℚ)) := by positivity
      linarith

/-- The emitted percentages are monotonically non-decreasing. -/
theorem runReads_chain (pr : ProgressReader) (rs : List (Nat × Option GoError)) :
    List.Chain' (fun a b : ℚ => a ≤ b) (runReads pr rs).2 := by
  induction rs generalizing pr with
  | nil => simp [runReads]
  | cons r rs ih =>
    rw [runReads_cons_snd, ProgressReader.Read_emit]
    by_cases hc : pr.hasCallback ∧ 0 < pr.Size
    · rw [if_pos hc]
      simp only [Option.toList_some, List.singleton_append]
      refine List.chain'_cons'.mpr ⟨?_, ih _⟩
      intro y hy
      have hmem : y ∈ (runReads (pr.Read r.1 r.2).1 rs).2 := List.mem_of_mem_head? hy
      have h := (runReads_emit_bounds (pr.Read r.1 r.2).1 rs y hmem).2.1
      rw [ProgressReader.Read_Size, ProgressReader.Read_read] at h
      exact h
    · rw [if_neg hc]
      simp only [Option.toList_none, List.nil_append]
      exact ih _

/-- When no callback is attached or `Size ≤ 0`, nothing is ever emitted. -/
theorem runReads_emits_nil (pr : ProgressReader) (rs : List (Nat × Option GoError))
    (h : ¬ (pr.hasCallback = true ∧ 0 < pr.Size)) : (runReads pr rs).2 = [] := by
  induction rs generalizing pr with
  | nil => rfl
  | cons r rs ih =>
    rw [runReads_cons_snd, ProgressReader.Read_emit, if_neg h]
    simp only [Option.toList_none, List.nil_append]
    apply ih
    rw [ProgressReader.Read_cb, ProgressReader.Read_Size]
    exact h

/-- The CRLF line terminator used throughout the multipart wire format. -/
def crlf : List Char := ['\r', '\n']

/-- The two-dash marker that opens boundary lines and closes the final one. -/
def dashdash : List Char := ['-', '-']

/-- `filepath.Base` for slash-separated paths, as used in
`fileName := filepath.Base(*filePath)` (main.go line 42): empty path gives
`"."`; trailing slashes are stripped; everything up to the last slash is
dropped; a path of only slashes gives `"/"`. -/
def baseName (path : List Char) : List Char :=
  if path = [] then ['.']
  else
    let p := (path.reverse.dropWhile (fun c => c = '/')).reverse
    let b := (p.reverse.takeWhile (fun c => c ≠ '/')).reverse
    if b = [] then ['/'] else b

/-- Go `mime/multipart`'s quote escaper for field and file names: backslash
and double quote are preceded by a backslash. -/
def escapeQuotes : List Char → List Char
  | [] => []
  | c :: rest =>
    if c = '\\' ∨ c = '"' then '\\' :: c :: escapeQuotes rest
    else c :: escapeQuotes rest

/-- The form-field name used by `writer.CreateFormFile("file", fileName)`
(main.go line 52). -/
def fileFieldName : List Char := "file".toList

/-- The `Content-Disposition` header line written by `CreateFormFile`. -/
def contentDispositionLine (fieldname filename : List Char) : List Char :=
  "Content-Disposition: form-data; name=\"".toList ++ escapeQuotes fieldname
    ++ "\"; filename=\"".toList ++ escapeQuotes filename ++ ['"']

/-- The `Content-Type` header line written by `CreateFormFile`. -/
def contentTypeLine : List Char := "Content-Type: application/octet-stream".toList

/-- The multipart body produced by `multipart.NewWriter` +
`CreateFormFile(fieldname, filename)` + copying `content` + `writer.Close()`
(main.go lines 48-91): opening boundary line, the two part headers, a blank
line, the raw content, and the closing boundary line. -/
def encodeBody (boundary fieldname filename content : List Char) : List Char :=
  dashdash ++ boundary ++ crlf
    ++ contentDispositionLine fieldname filename ++ crlf
    ++ contentTypeLine ++ crlf ++ crlf
    ++ content
    ++ crlf ++ dashdash ++ boundary ++ dashdash ++ crlf

/-- Drop an expected literal from the front of the input, or fail. -/
def stripLit (pre xs : List Char) : Option (List Char) :=
  if pre <+: xs then some (xs.drop pre.length) else none

/-- Split the input at the first occurrence of `pat`, returning the parts
before and after it (forward scan, as a streaming receiver performs it). -/
def findSplit (pat : List Char) : List Char → Option (List Char × List Char)
  | [] => if pat <+: ([] : List Char) then some ([], []) else none
  | c :: rest =>
    if pat <+: (c :: rest) then some ([], (c :: rest).drop pat.length)
    else (findSplit pat rest).map fun pr => (c :: pr.1, pr.2)

/-- Read one CRLF-terminated line. -/
def readLine (xs : List Char) : Option (List Char × List Char) := findSplit crlf xs

/-- Parse a `Content-Disposition: form-data` header line, recovering the
field name and the declared filename. -/
def parseContentDisposition (line : List Char) : Option (List Char × List Char) :=
  (stripLit "Content-Disposition: form-data; name=\"".toList line).bind fun r1 =>
  (findSplit ['"'] r1).bind fun p1 =>
  (stripLit "; filename=\"".toList p1.2).bind fun r2 =>
  (findSplit ['"'] r2).bind fun p2 =>
  if p2.2 = [] then some (p1.1, p2.1) else none

/-- Skip the remaining header lines of a part up to and including the blank
line separating headers from the part body.  `fuel` bounds the recursion. -/
def skipHeaders : Nat → List Char → Option (List Char)
  | 0, _ => none
  | fuel + 1, xs =>
    (readLine xs).bind fun p =>
    if p.1 = [] then some p.2 else skipHeaders fuel p.2

/-- The delimiter a multipart receiver scans for between parts:
CRLF, two dashes, and the boundary. -/
def delimiter (boundary : List Char) : List Char := crlf ++ dashdash ++ boundary

/-- One decoded form part: field name, declared filename, raw content. -/
structure FormPart where
  name : List Char
  filename : List Char
  content : List Char
deriving DecidableEq, Repr

/-- Parse the parts of a multipart body after the opening boundary line:
header block, content up to the next delimiter, then either the closing
`--CRLF` or a CRLF and another part. -/
def parseParts (boundary : List Char) : Nat → List Char → Option (List FormPart)
  | 0, _ => none
  | fuel + 1, xs =>
    (readLine xs).bind fun hd =>
    (parseContentDisposition hd.1).bind fun nf =>
    (skipHeaders (hd.2.length + 1) hd.2).bind fun r2 =>
    (findSplit (delimiter boundary) r2).bind fun pc =>
    if pc.2 = dashdash ++ crlf then some [⟨nf.1, nf.2, pc.1⟩]
    else
      (stripLit crlf pc.2).bind fun r4 =>
      (parseParts boundary fuel r4).map fun ps => ⟨nf.1, nf.2, pc.1⟩ :: ps

/-- Reference multipart/form-data receiver: check the opening boundary line
and parse the sequence of parts. -/
def decodeMultipart (boundary body : List Char) : Option (List FormPart) :=
  (stripLit (dashdash ++ boundary ++ crlf) body).bind fun r =>
  parseParts boundary (r.length + 1) r

theorem stripLit_append (p r : List Char) : stripLit p (p ++ r) = some r := by
  simp [stripLit, List.prefix_append, List.drop_left]

theorem findSplit_cons (pat : List Char) (c : Char) (rest : List Char) :
    findSplit pat (c :: rest) =
      if pat <+: (c :: rest) then some ([], (c :: rest).drop pat.length)
      else (findSplit pat rest).map fun pr => (c :: pr.1, pr.2) := rfl

/-- `findSplit` finds the intended occurrence of `p0 :: t` when `p0` occurs
nowhere in `t` (so no occurrence can straddle the junction) and the pattern
does not occur inside `a`. -/
theorem findSplit_append (p0 : Char) (t a c : List Char)
    (ht : p0 ∉ t) (ha : ¬ (p0 :: t) <:+: a) :
    findSplit (p0 :: t) (a ++ (p0 :: t) ++ c) = some (a, c) := by
  induction a with
  | nil =>
    rw [show ([] : List Char) ++ (p0 :: t) ++ c = p0 :: (t ++ c) from by simp]
    rw [findSplit_cons]
    have hp : (p0 :: t) <+: (p0 :: (t ++ c)) := ⟨c, by simp⟩
    rw [if_pos hp]
    simp [List.drop_succ_cons, List.drop_left]
  | cons x a' ih =>
    have ha' : ¬ (p0 :: t) <:+: a' := fun hinf =>
      ha (hinf.trans (List.suffix_cons x a').isInfix)
    rw [show (x :: a') ++ (p0 :: t) ++ c = x :: (a' ++ (p0 :: t) ++ c) from by simp]
    rw [findSplit_cons]
    have hneg : ¬ (p0 :: t) <+: (x :: (a' ++ (p0 :: t) ++ c)) := by
      intro hp
      obtain ⟨w, hw⟩ := hp
      have hw' : (p0 :: t) ++ w = (x :: a') ++ ((p0 :: t) ++ c) := by
        rw [hw]; simp
      by_cases hlen : (p0 :: t).length ≤ (x :: a').length
      · have htake : (p0 :: t) = ((x :: a') ++ ((p0 :: t) ++ c)).take (p0 :: t).length :=
          List.prefix_iff_eq_take.mp ⟨w, hw'⟩
        rw [List.take_append_eq_append_take, Nat.sub_eq_zero_of_le hlen] at htake
        simp only [List.take_zero, List.append_nil] at htake
        have hpre : (p0 :: t) <+: (x :: a') := by
          rw [htake]
          exact List.take_prefix _ _
        exact ha hpre.isInfix
      · push_neg at hlen
        have hk : (x :: a').length ≤ (p0 :: t).length := le_of_lt hlen
        have hsplit : (p0 :: t).take (x :: a').length ++ ((p0 :: t).drop (x :: a').length ++ w)
            = (x :: a') ++ ((p0 :: t) ++ c) := by
          rw [← List.append_assoc, List.take_append_drop]
          exact hw'
        have hlen2 : ((p0 :: t).take (x :: a').length).length = (x :: a').length := by
          rw [List.length_take]
          omega
        obtain ⟨h1, h2⟩ := List.append_inj hsplit hlen2
        have hdrop : (p0 :: t).drop ((x :: a').length) = t.drop a'.length := by
          simp [List.drop_succ_cons]
        have hlt : a'.length < t.length := by
          simp only [List.length_cons] at hlen
          omega
        have hne : t.drop a'.length ≠ [] := by
          intro hnil
          have := congrArg List.length hnil
          rw [List.length_drop] at this
          simp at this
          omega
        obtain ⟨y, ys, hys⟩ := List.exists_cons_of_ne_nil hne
        rw [hdrop, hys] at h2
        simp only [List.cons_append] at h2
        have hy : y = p0 := (List.cons.injEq _ _ _ _ ▸ h2).1
        have hymem : y ∈ t := by
          have hmem : y ∈ t.drop a'.length := by
            rw [hys]
            exact List.mem_cons_self y ys
          exact List.drop_subset _ _ hmem
        rw [hy] at hymem
        exact ht hymem
    rw [if_neg hneg, ih ha']
    rfl

/-- Special case of `findSplit_append`: the pattern's head occurs nowhere
before the intended occurrence. -/
theorem findSplit_append_notMem (p0 : Char) (t a c : List Char)
    (ht : p0 ∉ t) (ha : p0 ∉ a) :
    findSplit (p0 :: t) (a ++ (p0 :: t) ++ c) = some (a, c) :=
  findSplit_append p0 t a c ht
    (fun hinf => ha (hinf.subset (List.mem_cons_self p0 t)))

/-- Reading one line: the first CRLF after a CR-free line is the terminator. -/
theorem findSplit_crlf (line rest : List Char) (h : '\r' ∉ line) :
    findSplit crlf (line ++ crlf ++ rest) = some (line, rest) :=
  findSplit_append_notMem '\r' ['\n'] line rest (by decide) h

theorem someBind {α β : Type} (a : α) (f : α → Option β) : (some a).bind f = f a := rfl

theorem escapeQuotes_id (F : List Char) (h1 : '\\' ∉ F) (h2 : '"' ∉ F) :
    escapeQuotes F = F := by
  induction F with
  | nil => rfl
  | cons c cs ih =>
    have hc : ¬ (c = '\\' ∨ c = '"') := by
      rintro (rfl | rfl)
      · exact h1 (List.mem_cons_self _ _)
      · exact h2 (List.mem_cons_self _ _)
    simp only [escapeQuotes]
    rw [if_neg hc,
      ih (fun h => h1 (List.mem_cons_of_mem c h)) (fun h => h2 (List.mem_cons_of_mem c h))]

theorem parseParts_succ (B : List Char) (fuel : Nat) (xs : List Char) :
    parseParts B (fuel + 1) xs =
      ((readLine xs).bind fun hd =>
      (parseContentDisposition hd.1).bind fun nf =>
      (skipHeaders (hd.2.length + 1) hd.2).bind fun r2 =>
      (findSplit (delimiter B) r2).bind fun pc =>
      if pc.2 = dashdash ++ crlf then some [⟨nf.1, nf.2, pc.1⟩]
      else
        (stripLit crlf pc.2).bind fun r4 =>
        (parseParts B fuel r4).map fun ps => ⟨nf.1, nf.2, pc.1⟩ :: ps) := rfl

theorem skipHeaders_succ (fuel : Nat) (xs : List Char) :
    skipHeaders (fuel + 1) xs =
      ((readLine xs).bind fun p =>
        if p.1 = [] then some p.2 else skipHeaders fuel p.2) := rfl

/-- Decoding the header section written by `CreateFormFile`: the
`Content-Type` line and the blank separator line are consumed. -/
theorem skipHeaders_two (rest2 : List Char) (fuel : Nat) (hf : 2 ≤ fuel) :
    skipHeaders fuel (contentTypeLine ++ crlf ++ (crlf ++ rest2)) = some rest2 := by
  obtain ⟨k, rfl⟩ : ∃ k, fuel = k + 2 := ⟨fuel - 2, by omega⟩
  rw [show k + 2 = (k + 1) + 1 from rfl, skipHeaders_succ]
  simp only [readLine]
  rw [findSplit_crlf _ _ (by decide), someBind]
  try dsimp only
  rw [if_neg (by decide), skipHeaders_succ]
  simp only [readLine]
  rw [show crlf ++ rest2 = [] ++ crlf ++ rest2 from by simp, findSplit_crlf [] _ (by simp),
    someBind]
  try dsimp only
  rw [if_pos rfl]

/-- Parsing the `Content-Disposition` line written by `CreateFormFile`
recovers the field name and the filename. -/
theorem parseCD_encoded (F : List Char) (hFq : '"' ∉ F) (hFb : '\\' ∉ F) :
    parseContentDisposition (contentDispositionLine fileFieldName F) =
      some (fileFieldName, F) := by
  have hesc : escapeQuotes F = F := escapeQuotes_id F hFb hFq
  have hescf : escapeQuotes fileFieldName = fileFieldName := by decide
  have hq : "\"; filename=\"".toList = ['"'] ++ "; filename=\"".toList := by decide
  have hline : contentDispositionLine fileFieldName F =
      "Content-Disposition: form-data; name=\"".toList ++
        (fileFieldName ++ ['"'] ++ ("; filename=\"".toList ++ (F ++ ['"'] ++ []))) := by
    simp only [contentDispositionLine, hesc, hescf, hq, List.append_assoc, List.append_nil]
  simp only [parseContentDisposition]
  rw [hline, stripLit_append, someBind]
  try dsimp only
  rw [findSplit_append_notMem '"' [] fileFieldName _ (by simp) (by decide), someBind]
  try dsimp only
  rw [stripLit_append, someBind]
  try dsimp only
  rw [findSplit_append_notMem '"' [] F [] (by simp) hFq, someBind]
  try dsimp only
  rw [if_pos rfl]

/-- Scanning for the part-separating delimiter finds the closing one when
the content contains no occurrence of the delimiter. -/
theorem findSplit_delimiter (B content tail : List Char) (hBr : '\r' ∉ B)
    (hC : ¬ delimiter B <:+: content) :
    findSplit (delimiter B) (content ++ delimiter B ++ tail) = some (content, tail) := by
  have hd : delimiter B = '\r' :: (['\n', '-', '-'] ++ B) := by
    simp [delimiter, crlf, dashdash]
  rw [hd] at hC ⊢
  apply findSplit_append
  · intro hmem
    rcases List.mem_append.mp hmem with h | h
    · exact absurd h (by decide)
    · exact hBr h
  · exact hC

/-- Round trip of the encoder of main.go lines 48-91 against the reference
receiver: the single part is recovered exactly, for arbitrary (binary)
content, provided the (randomly generated) boundary is fresh — i.e. the
part-separating delimiter derived from it does not occur in the content —
and the filename contains no CR, double quote or backslash. -/
theorem decode_encode (B F content : List Char)
    (hBr : '\r' ∉ B)
    (hFr : '\r' ∉ F) (hFq : '"' ∉ F) (hFb : '\\' ∉ F)
    (hC : ¬ delimiter B <:+: content) :
    decodeMultipart B (encodeBody B fileFieldName F content) =
      some [⟨fileFieldName, F, content⟩] := by
  have hesc : escapeQuotes F = F := escapeQuotes_id F hFb hFq
  have hescf : escapeQuotes fileFieldName = fileFieldName := by decide
  have hCD : '\r' ∉ contentDispositionLine fileFieldName F := by
    intro h
    have h2 : '\r' ∈ "Content-Disposition: form-data; name=\"".toList ∨
        '\r' ∈ fileFieldName ∨ '\r' ∈ "\"; filename=\"".toList ∨ '\r' ∈ F ∨
        '\r' ∈ (['"'] : List Char) := by
      simpa [contentDispositionLine, hesc, hescf, List.mem_append, or_assoc] using h
    rcases h2 with h2 | h2 | h2 | h2 | h2
    · exact absurd h2 (by decide)
    · exact absurd h2 (by decide)
    · exact absurd h2 (by decide)
    · exact hFr h2
    · exact absurd h2 (by decide)
  have hbody : encodeBody B fileFieldName F content =
      (dashdash ++ B ++ crlf) ++
        (contentDispositionLine fileFieldName F ++ crlf ++
          (contentTypeLine ++ crlf ++
            (crlf ++ (content ++ delimiter B ++ (dashdash ++ crlf))))) := by
    simp [encodeBody, delimiter, List.append_assoc]
  have h2f : 2 ≤ (contentTypeLine ++ crlf ++
      (crlf ++ (content ++ delimiter B ++ (dashdash ++ crlf)))).length + 1 := by
    simp only [List.length_append, crlf, dashdash, List.length_cons, List.length_nil]
    omega
  simp only [decodeMultipart]
  rw [hbody, stripLit_append, someBind]
  try dsimp only
  rw [parseParts_succ]
  simp only [readLine]
  rw [findSplit_crlf _ _ hCD, someBind]
  try dsimp only
  rw [parseCD_encoded F hFq hFb, someBind]
  try dsimp only
  rw [skipHeaders_two _ _ h2f, someBind]
  try dsimp only
  rw [findSplit_delimiter B content _ hBr hC, someBind]
  try dsimp only
  rw [if_pos rfl]

/-- Draining a response body through a `ProgressReader` the way
`io.ReadAll(&respBodyReader)` does (main.go lines 134-135): the body arrives
as a sequence of chunks; each chunk is one successful read of its length;
the bytes are concatenated. -/
def readFullBody (pr : ProgressReader) : List (List Char) → ProgressReader × List Char
  | [] => (pr, [])
  | p :: ps =>
    let s := pr.Read p.length none
    let t := readFullBody s.1 ps
    (t.1, p ++ t.2)

/-- The receiving step (main.go lines 120-139): when the response declares
`ContentLength > 0` the body is read through a progress-metered reader
configured with that length; otherwise it is read directly.  The result is
the response bytes together with the final metered reader state, if one was
used. -/
def receiveBody (contentLength : Int) (ps : List (List Char)) :
    List Char × Option ProgressReader :=
  if 0 < contentLength then
    ((readFullBody ⟨contentLength, 0, true⟩ ps).2,
      some (readFullBody ⟨contentLength, 0, true⟩ ps).1)
  else (ps.flatten, none)

theorem readFullBody_cons (pr : ProgressReader) (p : List Char) (ps : List (List Char)) :
    readFullBody pr (p :: ps) =
      ((readFullBody (pr.Read p.length none).1 ps).1,
        p ++ (readFullBody (pr.Read p.length none).1 ps).2) := rfl

theorem readFullBody_snd (pr : ProgressReader) (ps : List (List Char)) :
    (readFullBody pr ps).2 = ps.flatten := by
  induction ps generalizing pr with
  | nil => rfl
  | cons p ps ih => rw [readFullBody_cons]; simp [ih]

theorem readFullBody_read (pr : ProgressReader) (ps : List (List Char)) :
    (readFullBody pr ps).1.read = pr.read + ((ps.flatten.length : Nat) : Int) := by
  induction ps generalizing pr with
  | nil => simp [readFullBody]
  | cons p ps ih =>
    rw [readFullBody_cons]
    simp only [ih, ProgressReader.Read_read, List.flatten_cons, List.length_append]
    push_cast
    ring

theorem readFullBody_Size (pr : ProgressReader) (ps : List (List Char)) :
    (readFullBody pr ps).1.Size = pr.Size := by
  induction ps generalizing pr with
  | nil => rfl
  | cons p ps ih => rw [readFullBody_cons]; simp only [ih, ProgressReader.Read_Size]

/-- The `http.StatusOK` constant the final report compares against
(main.go line 148). -/
def statusOK : Int := 200

/-- The final report (main.go lines 146-154): a success flag that is set
exactly when the status code equals `http.StatusOK`, and the response body
printed verbatim. -/
def reportResult (statusCode : Int) (body : List Char) : Bool × List Char :=
  (statusCode == statusOK, body)

/-- The "successful range" of HTTP status codes in the spec's words: the
2xx class.  This is spec-side vocabulary, used to compare the spec's claim
against the code's actual `== 200` check. -/
def inSuccessfulRange (c : Int) : Prop := 200 ≤ c ∧ c ≤ 299

/-- The step at which a run of `main` calls `os.Exit(1)`:
opening/statting the file (main.go lines 28-39), creating the form field
(52-56), reading the file during `io.Copy` (85-89), building the request
(97-101), sending it (109-113), or reading the response (141-144). -/
inductive StepFail where
  | fileAccess
  | encoding
  | fileRead
  | request
  | network
  | respRead
deriving DecidableEq, Repr

/-- Data of a received HTTP response: status code, declared
`Content-Length` (`-1` when unknown, as in Go), the body chunks as the
stream yields them, and whether reading the stream fails mid-way. -/
structure RespData where
  status : Int
  contentLength : Int
  chunks : List (List Char)
  readErr : Bool
deriving DecidableEq, Repr

/-- Outcomes of the external effects `main` performs, injected so that the
control flow of main.go lines 28-155 becomes a function: the file content
(`none` when `os.Open` fails), whether `Stat`, `CreateFormFile`, `io.Copy`
and `http.NewRequest` succeed, and the response (`none` when `client.Do`
fails: connection failure, DNS failure or the 30-minute timeout). -/
structure World where
  fileContent : Option (List Char)
  statOk : Bool
  createOk : Bool
  copyOk : Bool
  reqOk : Bool
  sendResult : Option RespData
deriving DecidableEq, Repr

/-- Observable trace of one run: how many times the HTTP send was attempted,
whether the response stream was read, whether the source file handle was
released by the end of the run (via the deferred `Close` on a normal return,
or by process termination on an `os.Exit` path), and the multipart body
handed to the send, if one was. -/
structure Trace where
  sendAttempts : Nat
  responseRead : Bool
  fileReleased : Bool
  sentBody : Option (List Char)
deriving DecidableEq, Repr

/-- Final state of a run of `main`: either `os.Exit(1)` at some step, or the
fall-through to the report with the status code and response bytes. -/
inductive PipelineResult where
  | failed (s : StepFail)
  | completed (statusCode : Int) (body : List Char)
deriving DecidableEq, Repr

/-- Process exit status: 1 on every `os.Exit(1)` path, 0 on the fall-through
through the report. -/
def exitCode : PipelineResult → Nat
  | .failed _ => 1
  | .completed _ _ => 0

/-- The control flow of `main` (main.go lines 28-155) over injected external
outcomes: open, stat, create the form part, copy the file into the multipart
body, build and send the request, receive the body, report.  Every failure
calls `os.Exit(1)` immediately; a non-2xx status is not a failure. -/
def runMain (boundary path : List Char) (w : World) : PipelineResult × Trace :=
  match w.fileContent with
  | none => (.failed .fileAccess, ⟨0, false, true, none⟩)
  | some content =>
    if w.statOk then
      if w.createOk then
        if w.copyOk then
          let body := encodeBody boundary fileFieldName (baseName path) content
          if w.reqOk then
            match w.sendResult with
            | none => (.failed .network, ⟨1, false, true, some body⟩)
            | some resp =>
              if resp.readErr then (.failed .respRead, ⟨1, true, true, some body⟩)
              else
                (.completed resp.status (receiveBody resp.contentLength resp.chunks).1,
                  ⟨1, true, true, some body⟩)
          else (.failed .request, ⟨0, false, true, none⟩)
        else (.failed .fileRead, ⟨0, false, true, none⟩)
      else (.failed .encoding, ⟨0, false, true, none⟩)
    else (.failed .fileAccess, ⟨0, false, true, none⟩)

/-- C1 (counterexample): status 201 lies in the successful (2xx) range, yet
the report of main.go line 148 (`resp.StatusCode == http.StatusOK`) flags it
as a failure, so "success iff the status code is in the successful range" is
false on the code. -/
theorem c1_counterexample :
    inSuccessfulRange 201 ∧ (reportResult 201 []).1 = false :=
  ⟨⟨by norm_num, by norm_num⟩, rfl⟩

/-- C1 (amended): after the exchange completes, the pipeline reports success
if and only if the response status code is exactly 200 (`http.StatusOK`);
every other code — including the other 2xx codes — is reported as failure,
and in both cases the response body is surfaced verbatim in the final
report. -/
theorem c1_report_success_iff_200 (st : Int) (b : List Char) :
    ((reportResult st b).1 = true ↔ st = statusOK) ∧ (reportResult st b).2 = b := by
  refine ⟨?_, rfl⟩
  simp [reportResult]

/-- C2 (counterexample): a `ProgressReader` with `totalSize = 1` whose
wrapped source yields 2 bytes emits the percentage 200 > 100 and ends with
`bytesSoFar = 2 > totalSize`; the code clamps neither, so the claim fails
for sources that yield more than `totalSize` bytes. -/
theorem c2_counterexample :
    (runReads ⟨1, 0, true⟩ [(2, (none : Option GoError))]).2 = [200] ∧
    ¬ ((200 : ℚ) ≤ 100) ∧
    (runReads ⟨1, 0, true⟩ [(2, (none : Option GoError))]).1.read = 2 ∧
    ¬ ((runReads ⟨1, 0, true⟩ [(2, (none : Option GoError))]).1.read ≤
        (⟨1, 0, true⟩ : ProgressReader).Size) := by
  refine ⟨?_, by norm_num, by decide, by decide⟩
  rw [runReads_cons_snd, ProgressReader.Read_emit, if_pos (by exact ⟨rfl, by decide⟩)]
  simp only [runReads, Option.toList_some, List.singleton_append, List.cons.injEq, and_true]
  norm_num

/-- C2 (amended): the emitted percentage is monotonically non-decreasing
across successive reads for every wrapped source, over-yielding ones
included (the first conjunct carries no proviso); and provided the wrapped
source yields in total at most `totalSize` bytes, every emitted percentage
is at most 100 and `bytesSoFar` stays bounded by `totalSize`.  (For an
over-yielding source both bounds fail — see the counterexample.) -/
theorem c2_progress_monotone_bounded (pr : ProgressReader)
    (rs : List (Nat × Option GoError)) :
    List.Chain' (fun a b : ℚ => a ≤ b) (runReads pr rs).2 ∧
    (pr.read + (((rs.map Prod.fst).sum : Nat) : Int) ≤ pr.Size →
      (runReads pr rs).1.read ≤ pr.Size ∧
      ∀ e ∈ (runReads pr rs).2, e ≤ 100) := by
  refine ⟨runReads_chain pr rs, ?_⟩
  intro hsum
  have hread : (runReads pr rs).1.read ≤ pr.Size := by
    rw [runReads_fst_read]
    exact hsum
  refine ⟨hread, ?_⟩
  intro e he
  have h := runReads_emit_bounds pr rs e he
  have hposq : (0 : ℚ) < ((pr.Size : ℚ)) := by exact_mod_cast h.1
  refine le_trans h.2.2 ?_
  apply pct_le_100 hposq
  exact_mod_cast hread

/-- C2 witness: monotonicity instantiated on the over-yielding
counterexample source (`totalSize = 1`, one 2-byte read), and the bounds
instantiated on a 10-byte stream delivered in chunks of 4 and 6 through a
reader with `totalSize = 10`, discharging the bounds' proviso there. -/
theorem c2_witness :
    List.Chain' (fun a b : ℚ => a ≤ b)
      (runReads ⟨1, 0, true⟩ [(2, (none : Option GoError))]).2 ∧
    List.Chain' (fun a b : ℚ => a ≤ b)
      (runReads ⟨10, 0, true⟩ [(4, none), (6, some GoError.eof)]).2 ∧
    (runReads ⟨10, 0, true⟩ [(4, none), (6, some GoError.eof)]).1.read ≤ 10 :=
  ⟨(c2_progress_monotone_bounded ⟨1, 0, true⟩ [(2, none)]).1,
   (c2_progress_monotone_bounded ⟨10, 0, true⟩ _).1,
   ((c2_progress_monotone_bounded ⟨10, 0, true⟩ [(4, none), (6, some GoError.eof)]).2
      (by decide)).1⟩

/-- C3: encoding a source file (arbitrary binary content, any size ≥ 0) into
the multipart body and decoding with the reference receiver recovers exactly
one form part named "file" whose declared filename is the base name of the
source path and whose content is byte-identical, under the boundary
freshness guaranteed by the random generator (the delimiter does not occur
in the content) and a filename free of CR, quote and backslash. -/
theorem c3_multipart_roundtrip (B path content : List Char)
    (hBr : '\r' ∉ B)
    (hFr : '\r' ∉ baseName path) (hFq : '"' ∉ baseName path)
    (hFb : '\\' ∉ baseName path)
    (hC : ¬ delimiter B <:+: content) :
    decodeMultipart B (encodeBody B fileFieldName (baseName path) content) =
      some [⟨fileFieldName, baseName path, content⟩] :=
  decode_encode B (baseName path) content hBr hFr hFq hFb hC

/-- C3 witness: a concrete boundary, path and binary content (a NUL byte, a
0xFF byte, a bare CRLF and a dash) round-trip exactly. -/
theorem c3_witness :
    decodeMultipart "ab12".toList
      (encodeBody "ab12".toList fileFieldName (baseName "/tmp/save.bin".toList)
        [Char.ofNat 0, Char.ofNat 255, '\r', '\n', '-']) =
      some [⟨fileFieldName, baseName "/tmp/save.bin".toList,
        [Char.ofNat 0, Char.ofNat 255, '\r', '\n', '-']⟩] :=
  c3_multipart_roundtrip "ab12".toList "/tmp/save.bin".toList
    [Char.ofNat 0, Char.ofNat 255, '\r', '\n', '-']
    (by decide) (by decide) (by decide) (by decide) (by decide)

/-- C4: for every source size S ≥ 0 and every chunking of the reads chosen
by the caller (any list of chunk sizes summing to S, followed by the final
EOF read), the cumulative `bytesSoFar` after fully draining the source
equals S. -/
theorem c4_drain_total (S : Nat) (ns : List Nat) (h : ns.sum = S) :
    (runReads ⟨(S : Int), 0, true⟩
      (ns.map (fun n => (n, (none : Option GoError))) ++ [(0, some GoError.eof)])).1.read
      = (S : Int) := by
  rw [runReads_fst_read]
  simp only [List.map_append, List.map_map, List.map_cons, List.map_nil]
  have hid : (Prod.fst ∘ fun n : Nat => (n, (none : Option GoError))) = id := rfl
  rw [hid, List.map_id]
  simp [h]

/-- C4 witness: a 5-byte source drained in chunks of 2 and 3. -/
theorem c4_witness :
    (runReads ⟨((5 : Nat) : Int), 0, true⟩
      ([2, 3].map (fun n => (n, (none : Option GoError))) ++ [(0, some GoError.eof)])).1.read
      = ((5 : Nat) : Int) :=
  c4_drain_total 5 [2, 3] (by decide)

/-- C5: at the receiving step a progress-metered reader is used if and only
if the declared content length is strictly positive; both branches produce
exactly the response bytes; and the metered reader is configured with
`Size = contentLength` and finishes with `bytesSoFar` equal to the number of
body bytes read — in particular, after a complete body of the declared
length, its final `bytesSoFar` equals the declared `Content-Length`. -/
theorem c5_receive_contract (cl : Int) (ps : List (List Char)) :
    ((receiveBody cl ps).2.isSome ↔ 0 < cl) ∧
    (receiveBody cl ps).1 = ps.flatten ∧
    (receiveBody cl ps).2.map (fun st => (st.Size, st.read)) =
      (if 0 < cl then some (cl, ((ps.flatten.length : Nat) : Int)) else none) := by
  by_cases h : 0 < cl
  · simp only [receiveBody, if_pos h]
    refine ⟨by simp [h], readFullBody_snd _ _, ?_⟩
    simp [readFullBody_Size, readFullBody_read]
  · simp [receiveBody, h]

/-- C6: the process exit status is 0 exactly on the runs that reach the
reporting step, whatever the status code is (in particular for non-2xx
responses), and 1 exactly on the `os.Exit(1)` failure paths of the earlier
steps. -/
theorem c6_exit_code (b p : List Char) (w : World) :
    (exitCode (runMain b p w).1 = 0 ↔
      ∃ st body, (runMain b p w).1 = PipelineResult.completed st body) ∧
    (∀ s, exitCode (PipelineResult.failed s) = 1) ∧
    (∀ st body, exitCode (PipelineResult.completed st body) = 0) := by
  refine ⟨?_, fun s => rfl, fun st body => rfl⟩
  rcases w with ⟨fc, stk, cr, cp, rq, sr⟩
  cases fc with
  | none => simp [runMain, exitCode]
  | some content =>
    cases sr with
    | none =>
      cases stk <;> cases cr <;> cases cp <;> cases rq <;>
        simp [runMain, exitCode]
    | some resp =>
      obtain ⟨rst, rcl, rch, rerr⟩ := resp
      cases stk <;> cases cr <;> cases cp <;> cases rq <;> cases rerr <;>
        simp [runMain, exitCode]

/-- C7: one `ProgressReader.Read` call returns exactly the wrapped source's
`(n, err)` pair (no retry, signals passed through unchanged), adds `n` to
`bytesSoFar`, and emits `bytesSoFar / totalSize * 100` precisely when a
progress sink is attached and `totalSize > 0`. -/
theorem c7_read_contract (pr : ProgressReader) (n : Nat) (err : Option GoError) :
    (pr.Read n err).2.2 = (n, err) ∧
    (pr.Read n err).1 = ⟨pr.Size, pr.read + (n : Int), pr.hasCallback⟩ ∧
    ∀ q : ℚ, ((pr.Read n err).2.1 = some q ↔
      (pr.hasCallback = true ∧ 0 < pr.Size ∧
        q = ((((pr.read + (n : Int) : Int)) : ℚ)) / ((pr.Size : ℚ)) * 100)) := by
  refine ⟨rfl, rfl, ?_⟩
  intro q
  rw [ProgressReader.Read_emit]
  by_cases hc : pr.hasCallback ∧ 0 < pr.Size
  · rw [if_pos hc]
    simp [hc.1, hc.2, eq_comm]
  · rw [if_neg hc]
    constructor
    · intro h
      exact absurd h (by simp)
    · rintro ⟨h1, h2, -⟩
      exact absurd ⟨h1, h2⟩ hc

/-- C8: when `totalSize ≤ 0` no percentage is ever emitted on any read, while
byte counting still accumulates every `n` returned by the wrapped source. -/
theorem c8_no_emit_unknown_size (pr : ProgressReader)
    (rs : List (Nat × Option GoError)) (h : pr.Size ≤ 0) :
    (runReads pr rs).2 = [] ∧
    (runReads pr rs).1.read = pr.read + (((rs.map Prod.fst).sum : Nat) : Int) := by
  refine ⟨runReads_emits_nil pr rs ?_, runReads_fst_read pr rs⟩
  rintro ⟨-, h2⟩
  omega

/-- C8 witness: a reader with `totalSize = 0` and an attached sink emits
nothing on a 3-byte read but still counts the bytes. -/
theorem c8_witness :
    (runReads ⟨0, 0, true⟩ [(3, (none : Option GoError))]).2 = [] ∧
    (runReads ⟨0, 0, true⟩ [(3, (none : Option GoError))]).1.read =
      0 + ((([(3, (none : Option GoError))].map Prod.fst).sum : Nat) : Int) :=
  c8_no_emit_unknown_size ⟨0, 0, true⟩ [(3, none)] (by decide)

/-- C9: if every step up to the send succeeds and the HTTP send fails
(connection failure, DNS failure or timeout), the run terminates with the
network failure, having attempted the send exactly once (no retry), without
any response-reading, and with the file handle released (the `os.Exit(1)`
path releases it by process termination). -/
theorem c9_network_failure_terminal (b p content : List Char) (w : World)
    (h1 : w.fileContent = some content) (h2 : w.statOk = true)
    (h3 : w.createOk = true) (h4 : w.copyOk = true) (h5 : w.reqOk = true)
    (h6 : w.sendResult = none) :
    runMain b p w =
      (PipelineResult.failed StepFail.network,
        ⟨1, false, true, some (encodeBody b fileFieldName (baseName p) content)⟩) := by
  have hw : w = ⟨some content, true, true, true, true, none⟩ := by
    rw [show w = (⟨w.fileContent, w.statOk, w.createOk, w.copyOk, w.reqOk,
      w.sendResult⟩ : World) from rfl, h1, h2, h3, h4, h5, h6]
  rw [hw]
  rfl

/-- C9 witness: a concrete world whose send fails. -/
theorem c9_witness :
    runMain "b1".toList "/a/f.txt".toList
      ⟨some ['x'], true, true, true, true, none⟩ =
      (PipelineResult.failed StepFail.network,
        ⟨1, false, true,
          some (encodeBody "b1".toList fileFieldName
            (baseName "/a/f.txt".toList) ['x'])⟩) :=
  c9_network_failure_terminal "b1".toList "/a/f.txt".toList ['x']
    ⟨some ['x'], true, true, true, true, none⟩ rfl rfl rfl rfl rfl rfl

/-- C10: on a read where the wrapped source returns both `n > 0` bytes and a
non-nil error, the reader still adds those `n` bytes to the count, still
emits the progress update under the usual sink/`totalSize > 0` condition
(byte accounting is unconditional, not restricted to error-free reads), and
hands the error through to the caller. -/
theorem c10_count_on_error_read (pr : ProgressReader) (n : Nat) (e : GoError)
    (hn : 0 < n) :
    (pr.Read n (some e)).1.read = pr.read + (n : Int) ∧
    (pr.Read n (some e)).2.2 = (n, some e) ∧
    ((pr.Read n (some e)).2.1 =
      if pr.hasCallback ∧ 0 < pr.Size then
        some ((((pr.read + (n : Int) : Int)) : ℚ) / ((pr.Size : ℚ)) * 100)
      else none) :=
  ⟨rfl, rfl, rfl⟩

/-- C10 witness: a reader at 3 of 10 bytes receiving `(4, ioError)` counts to
7 and still emits 70 before surfacing the error. -/
theorem c10_witness :
    ((⟨10, 3, true⟩ : ProgressReader).Read 4 (some GoError.ioError)).1.read = 7 ∧
    ((⟨10, 3, true⟩ : ProgressReader).Read 4 (some GoError.ioError)).2.1 = some 70 := by
  have h := c10_count_on_error_read ⟨10, 3, true⟩ 4 GoError.ioError (by decide)
  refine ⟨by rw [h.1]; decide, ?_⟩
  rw [h.2.2, if_pos (by exact ⟨rfl, by decide⟩)]
  norm_num
